import Mathlib

/-!
Verification of the analog-to-digital-converter driver `src/adc.rs` of the
`stm32f7xx-hal` repository.

The driver manipulates 32-bit peripheral registers of the STM32F7 ADC through
svd2rust-style accessors.  We embed the register block shallowly: every
register is a `Nat` (kept below `2 ^ 32` by the masked write operations), a
field read `r.field().bits()` is `fieldGet`, and a field write
`w.field().bits(v)` inside a `modify` is `fieldSet`.  The hardware-filled data
register `DR` is modelled as an oracle sequence `dr : Nat → Nat` together with
a read counter, so that successive reads of `DR` can return different
hardware-produced samples.  Busy-wait loops on status flags only read the
status register and are not otherwise modelled; `cortex_m::asm::delay` has no
register-visible effect.
-/

namespace Stm32Adc

/-- svd2rust field read: `(self.bits >> offset) & mask`, with `mask = 2^w - 1`
for a `w`-bit-wide field. -/
def fieldGet (x off w : Nat) : Nat :=
  (x >>> off) &&& (2 ^ w - 1)

/-- svd2rust field write (one field of a `modify`/`write` closure):
`(bits & !(mask << offset)) | (((value as u32) & mask) << offset)`.
On `u32`, `!m` is `0xFFFFFFFF ^^^ m`. -/
def fieldSet (x off w v : Nat) : Nat :=
  (x &&& (0xFFFFFFFF ^^^ ((2 ^ w - 1) <<< off))) ||| ((v &&& (2 ^ w - 1)) <<< off)


/-- ADC sampling time (`enum SampleTime`), one of 8 discrete durations. -/
inductive SampleTime
  | T_3
  | T_15
  | T_28
  | T_56
  | T_84
  | T_112
  | T_144
  | T_480
  deriving DecidableEq, Repr

/-- `impl From<SampleTime> for u8` / the Rust `sample_time as u32` cast
(the enum has no explicit discriminants, so the cast yields the variant
index, which agrees with the `From` impl). -/
def SampleTime.toNat : SampleTime → Nat
  | .T_3 => 0
  | .T_15 => 1
  | .T_28 => 2
  | .T_56 => 3
  | .T_84 => 4
  | .T_112 => 5
  | .T_144 => 6
  | .T_480 => 7

/-- ADC data register alignment (`enum Align`). -/
inductive Align
  | Right
  | Left
  deriving DecidableEq, Repr

/-- `impl From<Align> for bool`, as the 0/1 value written to the ALIGN bit. -/
def Align.toBit : Align → Nat
  | .Right => 0
  | .Left => 1

/-- The `Adc<ADC>` instance: the register block `rb` (inlined: `cr1`, `cr2`,
`smpr1`, `smpr2`, `sqr1`, `sqr2`, `sqr3`, `sr` are the 32-bit registers of one
ADC unit) together with the driver-side fields `sample_time`, `align`,
`calibrated_vdda` and `max_sample`.  The read-only, hardware-filled data
register `DR` is modelled as the oracle sequence `dr`, with `drReads` counting
how many times `DR` has been read so far (the `n`-th read returns `dr n`).
`sysclk` is omitted: it only scales busy-wait delays, which have no
register-visible effect. -/
structure Adc where
  cr1 : Nat
  cr2 : Nat
  smpr1 : Nat
  smpr2 : Nat
  sqr1 : Nat
  sqr2 : Nat
  sqr3 : Nat
  sr : Nat
  dr : Nat → Nat
  drReads : Nat
  sample_time : SampleTime
  align : Align
  calibrated_vdda : Nat
  max_sample : Nat

/-- `power_up`: `cr2.modify(|_, w| w.adon().set_bit())` (ADON is CR2 bit 0);
the stabilization delay has no register effect. -/
def power_up (s : Adc) : Adc :=
  { s with cr2 := fieldSet s.cr2 0 1 1 }

/-- `power_down`: `cr2.modify(|_, w| w.adon().clear_bit())`. -/
def power_down (s : Adc) : Adc :=
  { s with cr2 := fieldSet s.cr2 0 1 0 }

/-- `setup_oneshot`: one CR2 modify clearing CONT (bit 1) and setting SWSTART
(bit 30); one CR1 modify clearing SCAN (bit 8) and setting DISCEN (bit 11);
one SQR1 modify writing 0 into the 4-bit L field (bits 20..23). -/
def setup_oneshot (s : Adc) : Adc :=
  let s1 := { s with cr2 := fieldSet (fieldSet s.cr2 1 1 0) 30 1 1 }
  let s2 := { s1 with cr1 := fieldSet (fieldSet s1.cr1 8 1 0) 11 1 1 }
  { s2 with sqr1 := fieldSet s2.sqr1 20 4 0 }

/-- `resolution(resol_bits)`: writes the 2-bit RES field (CR1 bits 24..25);
any value other than 12/10/8/6 falls through to the `_` arm writing `0b00`. -/
def resolution (s : Adc) (resol_bits : Nat) : Adc :=
  if resol_bits = 12 then { s with cr1 := fieldSet s.cr1 24 2 0 }
  else if resol_bits = 10 then { s with cr1 := fieldSet s.cr1 24 2 1 }
  else if resol_bits = 8 then { s with cr1 := fieldSet s.cr1 24 2 2 }
  else if resol_bits = 6 then { s with cr1 := fieldSet s.cr1 24 2 3 }
  else { s with cr1 := fieldSet s.cr1 24 2 0 }

/-- `set_channel_sample_time(chan, sample_time)`.  NOTE: before dispatching on
the channel, the source performs an unconditional
`smpr2.modify(|r, w| w.bits((r.bits() & !0x07) | ((sample_time as u32) & 0x07)))`,
i.e. it always rewrites channel 0's 3-bit field SMP0 (SMPR2 bits 0..2).  Then
channels 0..=9 write SMPR2 bits `3*chan ..`, channels 10..=18 write SMPR1 bits
`3*(chan-10) ..`, and any other channel hits `unreachable!()` (a panic,
modelled as `none`). -/
def set_channel_sample_time (s : Adc) (chan : Nat) (sample_time : SampleTime) :
    Option Adc :=
  let s0 := { s with smpr2 := fieldSet s.smpr2 0 3 sample_time.toNat }
  if chan ≤ 9 then
    some { s0 with smpr2 := fieldSet s0.smpr2 (chan * 3) 3 sample_time.toNat }
  else if chan ≤ 18 then
    some { s0 with smpr1 := fieldSet s0.smpr1 ((chan - 10) * 3) 3 sample_time.toNat }
  else
    none

/-- The per-register slot packing of `set_regular_sequence`:
`iter().enumerate().fold(0u32, |s, (i, c)| s | ((*c as u32) << (i * 5)))`. -/
def packSlots (channels : List Nat) : Nat :=
  channels.enum.foldl (fun s ic => s ||| (ic.2 <<< (ic.1 * 5))) 0

/-- Recursive reformulation of the fold in `packSlots`. -/
def packRec : List Nat → Nat
  | [] => 0
  | c :: cs => c ||| (packRec cs <<< 5)

/-- `set_regular_sequence(channels)`: SQR3 is overwritten with the first six
channels in 5-bit slots; SQR2 (channels 7..12) is written only when
`len > 6`; SQR1's slot bits (channels 13..16) only when `len > 12`; finally
the 4-bit L field (SQR1 bits 20..23) is written with `(len - 1) as u8`
(the svd2rust field writer masks the `u8` with `0xF`, and `fieldSet` does the
same).  `len - 1` underflows `usize` for an empty slice (a panic with debug
assertions), modelled as `none`. -/
def set_regular_sequence (s : Adc) (channels : List Nat) : Option Adc :=
  if channels.length = 0 then none
  else
    let len := channels.length
    let s1 := { s with sqr3 := packSlots (channels.take 6) }
    let s2 := if 6 < len then { s1 with sqr2 := packSlots ((channels.drop 6).take 6) } else s1
    let s3 := if 12 < len then { s2 with sqr1 := packSlots ((channels.drop 12).take 4) } else s2
    some { s3 with sqr1 := fieldSet s3.sqr1 20 4 ((len - 1) % 256) }

/-- `set_continuous_mode(continuous)`: CR2 CONT (bit 1). -/
def set_continuous_mode (s : Adc) (continuous : Bool) : Adc :=
  { s with cr2 := fieldSet s.cr2 1 1 (if continuous then 1 else 0) }

/-- `set_discontinuous_mode(channels_count)`: `Some(count)` sets DISCEN
(CR1 bit 11) and writes the 3-bit DISCNUM field (CR1 bits 13..15); `None`
clears DISCEN. -/
def set_discontinuous_mode (s : Adc) (channels_count : Option Nat) : Adc :=
  match channels_count with
  | some count => { s with cr1 := fieldSet (fieldSet s.cr1 11 1 1) 13 3 count }
  | none => { s with cr1 := fieldSet s.cr1 11 1 0 }

/-- `current_sample`: `self.rb.dr.read().data().bits()` — reads the 16-bit
DATA field of DR.  The oracle counter advances so the next read can observe a
newer hardware sample. -/
def current_sample (s : Adc) : Nat × Adc :=
  (fieldGet (s.dr s.drReads) 0 16, { s with drReads := s.drReads + 1 })

/-- `clear_end_of_conversion_flag`: clears SR EOC (bit 1). -/
def clear_end_of_conversion_flag (s : Adc) : Adc :=
  { s with sr := fieldSet s.sr 1 1 0 }

/-- `start_conversion`: clears EOC, then one CR2 modify setting SWSTART
(bit 30) and writing the ALIGN bit (bit 11); the busy-wait on SR.STRT only
reads the status register. -/
def start_conversion (s : Adc) : Adc :=
  let s1 := clear_end_of_conversion_flag s
  { s1 with cr2 := fieldSet (fieldSet s1.cr2 30 1 1) 11 1 s1.align.toBit }

/-- `convert(chan)`: dummy-read DR (discarding a possibly stale sample), set
the channel's sample time, write the channel into the 5-bit SQ1 field (SQR3
bits 0..4), start the conversion, busy-wait on SR.EOC (reads only), then read
and return DR. -/
def convert (s : Adc) (chan : Nat) : Option (Nat × Adc) :=
  let s1 := (current_sample s).2
  (set_channel_sample_time s1 chan s1.sample_time).map fun s2 =>
    let s3 := { s2 with sqr3 := fieldSet s2.sqr3 0 5 chan }
    let s4 := start_conversion s3
    current_sample s4

/-- The `max_sample()` method: `(self.max_sample - 1) as u16`. -/
def maxSample (s : Adc) : Nat :=
  (s.max_sample - 1) % 2 ^ 16

/-- `sample_to_millivolts(sample)`:
`((u32::from(sample) * self.calibrated_vdda) / self.max_sample) as u16`,
with `u32` multiplication wrapping at `2^32` and the `as u16` cast truncating
at `2^16`. -/
def sample_to_millivolts (s : Adc) (sample : Nat) : Nat :=
  (((sample * s.calibrated_vdda) % 2 ^ 32) / s.max_sample) % 2 ^ 16

/-- Modelled from the spec: the RCC peripheral reset issued by the
constructor when `reset` is true (`<$ADC>::reset(apb2)`, provided by
`crate::rcc`, which is not under `src/`).  Spec §4.1: it "powers the
peripheral off and issues a peripheral reset"; a peripheral reset restores
the ADC registers to their hardware reset values (all zero for CR1, CR2,
SMPR1/2, SQR1/2/3 and the status flags used here). -/
def resetRegisters (s : Adc) : Adc :=
  { s with cr1 := 0, cr2 := 0, smpr1 := 0, smpr2 := 0,
           sqr1 := 0, sqr2 := 0, sqr3 := 0, sr := 0 }

/-- The constructor `Adc::adc1` (the `adc_hal!` template, identical for
`adc2`/`adc3`): builds the instance with default sample time `T_56`, default
alignment `Right`, `calibrated_vdda = VDDA_CALIB` and
`max_sample = 1 << nb_resolution_bits`, optionally powers down and resets,
then runs `setup_oneshot`, `resolution(nb_resolution_bits)` and `power_up`.
`VDDA_CALIB` comes from `crate::signature` (not under `src/`), so its value
is taken as the parameter `vddaCalib`.  `adc` is the prior state of the
register block (plus the oracle data register). -/
def adc1 (adc : Adc) (nb_resolution_bits : Nat) (vddaCalib : Nat) (reset : Bool) : Adc :=
  let s := { adc with sample_time := SampleTime.T_56, align := Align.Right,
                      calibrated_vdda := vddaCalib,
                      max_sample := 1 <<< nb_resolution_bits }
  let s1 := if reset then resetRegisters (power_down s) else s
  power_up (resolution (setup_oneshot s1) nb_resolution_bits)

/-- `read_vref(adc_common)`: if CCR.TSVREFE (bit 23) is clear, first clear
CCR.VBATE (bit 22), then set TSVREFE and wait the stabilization delay;
convert internal channel 17 (`Vref::channel()`); if the block had to be
enabled, clear TSVREFE again.  VBATE is never written back.  Returns the raw
sample together with the updated instance and the updated shared CCR. -/
def read_vref (s : Adc) (ccr : Nat) : Option (Nat × Adc × Nat) :=
  let tsv_off := fieldGet ccr 23 1 = 0
  let ccr1 := if tsv_off then fieldSet (fieldSet ccr 22 1 0) 23 1 1 else ccr
  (convert s 17).map fun p =>
    (p.1, p.2, if tsv_off then fieldSet ccr1 23 1 0 else ccr1)

/-- `enable_temperature_and_vref`: `disable_vbat` (clear CCR.VBATE) first,
then set CCR.TSVREFE. -/
def enable_temperature_and_vref (ccr : Nat) : Nat :=
  fieldSet (fieldSet ccr 22 1 0) 23 1 1

/-- `disable_temperature_and_vref`: clear CCR.TSVREFE. -/
def disable_temperature_and_vref (ccr : Nat) : Nat :=
  fieldSet ccr 23 1 0

/-- `temperature_and_vref_enabled`: `ccr.read().tsvrefe().bit_is_set()`. -/
def temperature_and_vref_enabled (ccr : Nat) : Bool :=
  fieldGet ccr 23 1 = 1

/-- `calibrate()`: if the temperature/vref block is disabled, enable it
(which clears VBATE first) and wait; read the factory code `VrefCal` (from
`crate::signature`, not under `src/`, hence the parameter `vrefCal`), sample
internal channel 17, set
`calibrated_vdda = (VDDA_CALIB * u32::from(vref_cal)) / u32::from(vref_samp)`
(`u32` arithmetic, multiplication wrapping at `2^32`), and restore TSVREFE to
disabled if it was disabled on entry.  VBATE is never written back. -/
def calibrate (vddaCalib vrefCal : Nat) (s : Adc) (ccr : Nat) : Option (Adc × Nat) :=
  let vref_en := temperature_and_vref_enabled ccr
  let ccr1 := if vref_en then ccr else enable_temperature_and_vref ccr
  (convert s 17).map fun p =>
    let s2 := { p.2 with calibrated_vdda := ((vddaCalib * vrefCal) % 2 ^ 32) / p.1 }
    (s2, if vref_en then ccr1 else disable_temperature_and_vref ccr1)

/-- The DMA transfer object produced by `with_dma` (its fields beyond the
source are opaque to this module; we record the consumed instance and the
buffer length the transfer was configured with). -/
structure Transfer where
  adc : Adc
  buffer_len : Nat

/-- Modelled from the spec: `dma::Transfer::new` (repository file
`src/dma.rs`, not under `src/`).  Spec §4.5: "buffer length must not exceed
65535 elements (hardware transfer-count register width); violation is a fatal
precondition failure, not a recoverable error", and `with_dma`'s own doc
comment: "If `buffer` is longer, this method will panic."  The fatal
precondition failure (a Rust panic) is modelled as `Except.error`; the
length is stored as-is, never coerced. -/
def Transfer.new (adc : Adc) (buffer_len : Nat) : Except String Transfer :=
  if 65535 < buffer_len then Except.error "buffer is too large for DMA"
  else Except.ok ⟨adc, buffer_len⟩

/-- `with_dma(buffer, dma, stream)`: disables discontinuous mode, then one
CR2 modify writing ALIGN (bit 11), setting DMA (bit 8), DDS (bit 9,
`continuous()`) and ADON (bit 0), and hands the instance to
`dma::Transfer::new` with the buffer (represented by its length). -/
def with_dma (s : Adc) (buffer_len : Nat) : Except String Transfer :=
  let s1 := set_discontinuous_mode s none
  let newCr2 := fieldSet (fieldSet (fieldSet (fieldSet s1.cr2 11 1 s1.align.toBit) 8 1 1) 9 1 1) 0 1 1
  let s2 := { s1 with cr2 := newCr2 }
  Transfer.new s2 buffer_len

/-- Decoder for the regular-sequence encoding, written from the spec's
register table (§6): slot `i` is the 5-bit field at bit offset `5*i`, slots
0..5 in SQR3, 6..11 in SQR2, 12..15 in SQR1. -/
def decodeSlot (s : Adc) (i : Nat) : Nat :=
  if i < 6 then fieldGet s.sqr3 (5 * i) 5
  else if i < 12 then fieldGet s.sqr2 (5 * (i - 6)) 5
  else fieldGet s.sqr1 (5 * (i - 12)) 5

/-- Decoder for the sequence length: the 4-bit L field (SQR1 bits 20..23)
holds length minus one. -/
def decodeLen (s : Adc) : Nat :=
  fieldGet s.sqr1 20 4 + 1

/-- Full decoder: the `decodeLen s` channels the hardware considers valid,
in slot order. -/
def decodeSeq (s : Adc) : List Nat :=
  (List.range (decodeLen s)).map (decodeSlot s)

/-- A concrete instance used to exercise the definitions: all registers and
the shared CCR at their reset value 0, the data-register oracle returning
1500 on every read (the measured `Vref` code of the spec's calibration
scenario), and the `VDDA_CALIB` default of 3300 mV with 12-bit resolution. -/
def adcInit : Adc :=
  { cr1 := 0, cr2 := 0, smpr1 := 0, smpr2 := 0, sqr1 := 0, sqr2 := 0, sqr3 := 0,
    sr := 0, dr := fun _ => 1500, drReads := 0,
    sample_time := SampleTime.T_56, align := Align.Right,
    calibrated_vdda := 3300, max_sample := 4096 }

/-! Generic facts about 32-bit register field reads and writes. -/

theorem mask32_eq : (0xFFFFFFFF : Nat) = 2 ^ 32 - 1 := by norm_num

theorem testBit_fieldGet (x off w j : Nat) :
    (fieldGet x off w).testBit j = (x.testBit (off + j) && decide (j < w)) := by
  unfold fieldGet
  simp [Nat.testBit_and, Nat.testBit_shiftRight, Nat.testBit_two_pow_sub_one, Bool.and_comm]

theorem fieldGet_lt (x off w : Nat) : fieldGet x off w < 2 ^ w := by
  unfold fieldGet
  exact Nat.and_lt_two_pow _ (by have := Nat.two_pow_pos w; omega)

/-- Effect of a field write on a single bit: bits inside the field come from
the written value, bits outside the field (below bit 32) are preserved, and
bits at or above 32 are zero. -/
theorem testBit_fieldSet (x off w v i : Nat) (h : off + w ≤ 32) :
    (fieldSet x off w v).testBit i =
      if off ≤ i ∧ i < off + w then v.testBit (i - off)
      else (x.testBit i && decide (i < 32)) := by
  unfold fieldSet
  rw [mask32_eq]
  simp only [Nat.testBit_or, Nat.testBit_and, Nat.testBit_xor, Nat.testBit_shiftLeft,
    Nat.testBit_two_pow_sub_one]
  by_cases h1 : off ≤ i
  · by_cases h2 : i < off + w
    · have hi32 : i < 32 := by omega
      have hw : i - off < w := by omega
      simp [h1, h2, hi32, hw, ge_iff_le]
    · have hw : ¬ i - off < w := by omega
      by_cases hi32 : i < 32 <;> simp [h1, h2, hi32, hw, ge_iff_le]
  · have hi32 : i < 32 := by omega
    simp [h1, hi32, ge_iff_le]

/-- Reading back the field just written returns the written value masked to
the field width. -/
theorem fieldGet_fieldSet_self (x off w v : Nat) (h : off + w ≤ 32) :
    fieldGet (fieldSet x off w v) off w = v &&& (2 ^ w - 1) := by
  apply Nat.eq_of_testBit_eq
  intro j
  rw [testBit_fieldGet, testBit_fieldSet _ _ _ _ _ h]
  by_cases hj : j < w
  · simp [hj, Nat.testBit_and, Nat.testBit_two_pow_sub_one]
  · simp [hj, Nat.testBit_and, Nat.testBit_two_pow_sub_one]

/-- Writing one field does not change the value read from a disjoint field
(both fields lying inside the 32-bit register). -/
theorem fieldGet_fieldSet_of_disjoint (x off w v off' w' : Nat)
    (h : off + w ≤ 32) (h' : off' + w' ≤ 32)
    (hd : off + w ≤ off' ∨ off' + w' ≤ off) :
    fieldGet (fieldSet x off w v) off' w' = fieldGet x off' w' := by
  apply Nat.eq_of_testBit_eq
  intro j
  rw [testBit_fieldGet, testBit_fieldGet, testBit_fieldSet _ _ _ _ _ h]
  by_cases hj : j < w'
  · have hout : ¬ (off ≤ off' + j ∧ off' + j < off + w) := by omega
    have h32 : off' + j < 32 := by omega
    simp [hout, hj, h32]
  · simp [hj]


/-! Lemmas about the slot packing used by `set_regular_sequence`. -/


theorem lor_shiftLeft (a b n : Nat) : (a ||| b) <<< n = (a <<< n) ||| (b <<< n) := by
  apply Nat.eq_of_testBit_eq
  intro i
  simp [Nat.testBit_shiftLeft, Nat.testBit_or, Bool.and_or_distrib_left]

theorem packSlots_enumFrom (l : List Nat) : ∀ (k a : Nat),
    (l.enumFrom k).foldl (fun s ic => s ||| (ic.2 <<< (ic.1 * 5))) a
      = a ||| (packRec l <<< (5 * k)) := by
  induction l with
  | nil => intro k a; simp [packRec]
  | cons c cs ih =>
    intro k a
    simp only [List.enumFrom_cons, List.foldl_cons]
    rw [ih (k + 1), packRec, lor_shiftLeft, ← Nat.shiftLeft_add, Nat.lor_assoc]
    have h1 : k * 5 = 5 * k := Nat.mul_comm k 5
    have h2 : 5 + 5 * k = 5 * (k + 1) := by ring
    rw [h1, h2]

theorem packSlots_eq_packRec (l : List Nat) : packSlots l = packRec l := by
  have h : l.enum = l.enumFrom 0 := rfl
  unfold packSlots
  rw [h, packSlots_enumFrom l 0 0]
  simp

theorem testBit_of_lt_32 (c j : Nat) (hc : c < 32) (hj : 5 ≤ j) : c.testBit j = false :=
  Nat.testBit_lt_two_pow
    (lt_of_lt_of_le (by omega : c < 2 ^ 5) (Nat.pow_le_pow_right (by norm_num) hj))

/-- Slot extraction: reading the 5-bit field at offset `5*i` of the packed
word recovers the `i`-th channel, provided all channels fit in 5 bits. -/
theorem fieldGet_packRec (l : List Nat) : ∀ (i : Nat), (∀ c ∈ l, c < 32) →
    i < l.length → fieldGet (packRec l) (5 * i) 5 = l.getD i 0 := by
  induction l with
  | nil => intro i _ hi; simp at hi
  | cons c cs ih =>
    intro i hall hi
    have hc : c < 32 := hall c (List.mem_cons_self c cs)
    match i with
    | 0 =>
      show fieldGet (packRec (c :: cs)) 0 5 = c
      apply Nat.eq_of_testBit_eq
      intro j
      rw [testBit_fieldGet, packRec]
      simp only [Nat.testBit_or, Nat.testBit_shiftLeft, Nat.zero_add]
      by_cases hj : j < 5
      · have : ¬ 5 ≤ j := by omega
        simp [hj, this, ge_iff_le]
      · have : c.testBit j = false := testBit_of_lt_32 c j hc (by omega)
        simp [hj, this]
    | i + 1 =>
      show fieldGet (packRec (c :: cs)) (5 * (i + 1)) 5 = cs.getD i 0
      have key : fieldGet (packRec (c :: cs)) (5 * (i + 1)) 5 = fieldGet (packRec cs) (5 * i) 5 := by
        apply Nat.eq_of_testBit_eq
        intro j
        rw [testBit_fieldGet, testBit_fieldGet, packRec]
        simp only [Nat.testBit_or, Nat.testBit_shiftLeft]
        have hcf : c.testBit (5 * (i + 1) + j) = false :=
          testBit_of_lt_32 c _ hc (by omega)
        have hge : 5 ≤ 5 * (i + 1) + j := by omega
        have harg : 5 * (i + 1) + j - 5 = 5 * i + j := by omega
        simp [hcf, hge, harg, ge_iff_le]
      rw [key]
      exact ih i (fun x hx => hall x (List.mem_cons_of_mem c hx)) (by simpa using hi)

theorem fieldGet_packSlots (l : List Nat) (i : Nat) (hall : ∀ c ∈ l, c < 32)
    (hi : i < l.length) : fieldGet (packSlots l) (5 * i) 5 = l.getD i 0 := by
  rw [packSlots_eq_packRec]
  exact fieldGet_packRec l i hall hi

/-! Register-level description of `set_regular_sequence`'s result. -/

theorem set_regular_sequence_isSome (s : Adc) (chs : List Nat) (h : chs.length ≠ 0) :
    ∃ s', set_regular_sequence s chs = some s' := by
  simp [set_regular_sequence, h]

theorem sqr3_set_regular_sequence (s : Adc) (chs : List Nat) (h : chs.length ≠ 0) :
    (set_regular_sequence s chs).map (·.sqr3) = some (packSlots (chs.take 6)) := by
  by_cases h6 : 6 < chs.length <;> by_cases h12 : 12 < chs.length <;>
    simp [set_regular_sequence, h, h6, h12]

theorem sqr2_set_regular_sequence (s : Adc) (chs : List Nat) (h6 : 6 < chs.length) :
    (set_regular_sequence s chs).map (·.sqr2) = some (packSlots ((chs.drop 6).take 6)) := by
  have h : chs.length ≠ 0 := by omega
  by_cases h12 : 12 < chs.length <;> simp [set_regular_sequence, h, h6, h12]

theorem sqr1_set_regular_sequence_high (s : Adc) (chs : List Nat) (h12 : 12 < chs.length) :
    (set_regular_sequence s chs).map (·.sqr1) =
      some (fieldSet (packSlots ((chs.drop 12).take 4)) 20 4 ((chs.length - 1) % 256)) := by
  have h : chs.length ≠ 0 := by omega
  have h6 : 6 < chs.length := by omega
  simp [set_regular_sequence, h, h6, h12]

theorem sqr1_set_regular_sequence_low (s : Adc) (chs : List Nat) (h : chs.length ≠ 0)
    (h12 : ¬ 12 < chs.length) :
    (set_regular_sequence s chs).map (·.sqr1) =
      some (fieldSet s.sqr1 20 4 ((chs.length - 1) % 256)) := by
  by_cases h6 : 6 < chs.length <;> simp [set_regular_sequence, h, h6, h12]

/-- The 4-bit L field after `set_regular_sequence` holds `(len - 1) mod 16`
(the `as u8` cast truncates at 256, the svd2rust field writer at 16). -/
theorem lField_set_regular_sequence (s : Adc) (chs : List Nat) (h : chs.length ≠ 0)
    (s' : Adc) (hs' : set_regular_sequence s chs = some s') :
    fieldGet s'.sqr1 20 4 = (chs.length - 1) % 16 := by
  have key : fieldGet s'.sqr1 20 4 = ((chs.length - 1) % 256) &&& (2 ^ 4 - 1) := by
    by_cases h12 : 12 < chs.length
    · have := sqr1_set_regular_sequence_high s chs h12
      rw [hs'] at this
      simp only [Option.map_some', Option.some.injEq] at this
      rw [this, fieldGet_fieldSet_self _ _ _ _ (by omega)]
    · have := sqr1_set_regular_sequence_low s chs h h12
      rw [hs'] at this
      simp only [Option.map_some', Option.some.injEq] at this
      rw [this, fieldGet_fieldSet_self _ _ _ _ (by omega)]
  rw [key]
  have : ((chs.length - 1) % 256) &&& (2 ^ 4 - 1) = ((chs.length - 1) % 256) % 2 ^ 4 :=
    Nat.and_pow_two_sub_one_eq_mod _ 4
  rw [this]
  show (chs.length - 1) % 256 % 16 = (chs.length - 1) % 16
  exact Nat.mod_mod_of_dvd _ (by norm_num)

/-- Decoding slot `i < min(len, 16)` after `set_regular_sequence` recovers the
`i`-th channel of the request. -/
theorem decodeSlot_set_regular_sequence (s : Adc) (chs : List Nat)
    (hall : ∀ c ∈ chs, c < 32) (i : Nat) (hi : i < chs.length) (hi16 : i < 16)
    (s' : Adc) (hs' : set_regular_sequence s chs = some s') :
    decodeSlot s' i = chs.getD i 0 := by
  have h : chs.length ≠ 0 := by omega
  by_cases hi6 : i < 6
  · have h3 := sqr3_set_regular_sequence s chs h
    rw [hs'] at h3
    simp only [Option.map_some', Option.some.injEq] at h3
    rw [decodeSlot, if_pos hi6, h3,
      fieldGet_packSlots _ i (fun c hc => hall c (List.mem_of_mem_take hc))
        (by simp [List.length_take]; omega)]
    simp only [List.getD_eq_getElem?_getD]
    rw [List.getElem?_take_of_lt hi6]
  · by_cases hi12 : i < 12
    · have h6 : 6 < chs.length := by omega
      have h2 := sqr2_set_regular_sequence s chs h6
      rw [hs'] at h2
      simp only [Option.map_some', Option.some.injEq] at h2
      rw [decodeSlot, if_neg hi6, if_pos hi12, h2,
        fieldGet_packSlots _ (i - 6)
          (fun c hc => hall c (List.mem_of_mem_drop (List.mem_of_mem_take hc)))
          (by simp [List.length_take, List.length_drop]; omega)]
      simp only [List.getD_eq_getElem?_getD]
      rw [List.getElem?_take_of_lt (by omega), List.getElem?_drop]
      have : 6 + (i - 6) = i := by omega
      rw [this]
    · have h12 : 12 < chs.length := by omega
      have h1 := sqr1_set_regular_sequence_high s chs h12
      rw [hs'] at h1
      simp only [Option.map_some', Option.some.injEq] at h1
      rw [decodeSlot, if_neg hi6, if_neg hi12, h1,
        fieldGet_fieldSet_of_disjoint _ _ _ _ _ _ (by omega) (by omega) (by omega),
        fieldGet_packSlots _ (i - 12)
          (fun c hc => hall c (List.mem_of_mem_drop (List.mem_of_mem_take hc)))
          (by simp [List.length_take, List.length_drop]; omega)]
      simp only [List.getD_eq_getElem?_getD]
      rw [List.getElem?_take_of_lt (by omega), List.getElem?_drop]
      have : 12 + (i - 12) = i := by omega
      rw [this]

theorem getD_zero_eq_getElem (l : List Nat) (i : Nat) (h : i < l.length) :
    l.getD i 0 = l[i] := by
  simp [List.getD_eq_getElem?_getD, List.getElem?_eq_getElem h]

/-- For a valid channel, `convert` succeeds and returns the *second* read of
the data register: the read at index `drReads` is the initial dummy read and
its value is discarded. -/
theorem convert_eq (s : Adc) (chan : Nat) (hc : chan ≤ 18) :
    ∃ s', convert s chan = some (fieldGet (s.dr (s.drReads + 1)) 0 16, s') := by
  unfold convert current_sample set_channel_sample_time start_conversion
    clear_end_of_conversion_flag
  by_cases h9 : chan ≤ 9
  · simp [h9]
  · simp [h9, hc]

theorem max_sample_adc1 (s : Adc) (b v : Nat) :
    (adc1 s b v false).max_sample = 2 ^ b := by
  unfold adc1 power_up resolution setup_oneshot
  split_ifs <;> simp_all [Nat.one_shiftLeft]

theorem calibrated_vdda_adc1 (s : Adc) (b v : Nat) :
    (adc1 s b v false).calibrated_vdda = v := by
  unfold adc1 power_up resolution setup_oneshot
  split_ifs <;> simp_all

/-! Claim theorems. -/

/-- C1 (code bug): the claim — and spec §8 — state that
`set_channel_sample_time(c, t)` modifies exactly the 3-bit field of channel
`c` and leaves every other bit of both sample-time registers (including every
other channel's field) unchanged.  The source instead performs an
unconditional `smpr2.modify(|r, w| w.bits((r.bits() & !0x07) | (t & 0x07)))`
before dispatching on the channel, rewriting channel 0's field SMP0 on every
call.  Concretely: with SMPR2 initially `0x3F` (channels 0 and 1 both at
sample-time code 7), setting channel 1's sample time to `T_3` (code 0) ends
with channel 0's field equal to 0 — a bit outside channel 1's field
`[3, 5]` changed. -/
theorem set_channel_sample_time_clobbers_smp0 :
    ((set_channel_sample_time { adcInit with smpr2 := 0x3F } 1 SampleTime.T_3).map
        (fun s => fieldGet s.smpr2 0 3)) = some 0 ∧
    fieldGet ({ adcInit with smpr2 := 0x3F } : Adc).smpr2 0 3 = 7 := by
  constructor
  · decide
  · decide

/-- C2 (confirmed): for every non-empty sequence of at most 16 channel values
in 0..=31, `set_regular_sequence` succeeds, decoding the three sequence
registers together with the length field reproduces exactly the requested
channels in order, and the 4-bit L field holds length minus one. -/
theorem set_regular_sequence_roundtrip (chs : List Nat) (s : Adc)
    (h1 : 1 ≤ chs.length) (h2 : chs.length ≤ 16) (hall : ∀ c ∈ chs, c < 32) :
    ∃ s', set_regular_sequence s chs = some s' ∧ decodeSeq s' = chs ∧
      fieldGet s'.sqr1 20 4 = chs.length - 1 := by
  obtain ⟨s', hs'⟩ := set_regular_sequence_isSome s chs (by omega)
  have hlf := lField_set_regular_sequence s chs (by omega) s' hs'
  have hmod : (chs.length - 1) % 16 = chs.length - 1 := Nat.mod_eq_of_lt (by omega)
  refine ⟨s', hs', ?_, by rw [hlf, hmod]⟩
  have hlen : decodeLen s' = chs.length := by
    unfold decodeLen
    rw [hlf, hmod]
    omega
  apply List.ext_getElem
  · simp [decodeSeq, hlen]
  · intro i hi1 hi2
    simp only [decodeSeq, hlen, List.getElem_map, List.getElem_range]
    rw [decodeSlot_set_regular_sequence s chs hall i hi2 (by omega) s' hs']
    exact getD_zero_eq_getElem chs i hi2

/-- C2 witness: the spec's own scenario `[3, 7, 12, 1]`. -/
theorem set_regular_sequence_roundtrip_witness :
    ∃ s', set_regular_sequence adcInit [3, 7, 12, 1] = some s' ∧
      decodeSeq s' = [3, 7, 12, 1] ∧ fieldGet s'.sqr1 20 4 = 3 := by
  have h := set_regular_sequence_roundtrip [3, 7, 12, 1] adcInit
    (by decide) (by decide) (by decide)
  simpa using h

/-- C3 counterexample: the claim says that for sequences longer than 16 the
length field is written "so the hardware considers exactly 16 entries valid",
i.e. L = 15.  For the 17-channel input `List.range 17`, the code writes
`(17 - 1) as u8 & 0xF = 0` into L — the hardware considers exactly one entry
valid, not 16. -/
theorem set_regular_sequence_len17_lfield :
    ((set_regular_sequence adcInit (List.range 17)).map
        (fun s' => fieldGet s'.sqr1 20 4)) ≠ some 15 ∧
    ((set_regular_sequence adcInit (List.range 17)).map
        (fun s' => fieldGet s'.sqr1 20 4)) = some 0 ∧
    ((set_regular_sequence adcInit (List.range 17)).map decodeLen) = some 1 := by
  refine ⟨by decide, by decide, by decide⟩

/-- C3 (corrected): for every sequence of channel values in 0..=31 longer
than 16 entries, `set_regular_sequence` silently truncates the slot encoding
to the first 16 entries — entries beyond the 16th are dropped without any
error — and the 4-bit length field is written with `(L - 1) mod 16` (so the
hardware considers exactly 16 entries valid only when `L` is a multiple
of 16, not for every over-long sequence as the claim states). -/
theorem set_regular_sequence_truncates (chs : List Nat) (s : Adc)
    (h16 : 16 < chs.length) (hall : ∀ c ∈ chs, c < 32) :
    ∃ s', set_regular_sequence s chs = some s' ∧
      (List.range 16).map (decodeSlot s') = chs.take 16 ∧
      fieldGet s'.sqr1 20 4 = (chs.length - 1) % 16 := by
  obtain ⟨s', hs'⟩ := set_regular_sequence_isSome s chs (by omega)
  refine ⟨s', hs', ?_, lField_set_regular_sequence s chs (by omega) s' hs'⟩
  apply List.ext_getElem
  · simp [List.length_take]
    omega
  · intro i hi1 hi2
    have hi16 : i < 16 := by simpa using hi1
    simp only [List.getElem_map, List.getElem_range, List.getElem_take]
    rw [decodeSlot_set_regular_sequence s chs hall i (by omega) hi16 s' hs']
    exact getD_zero_eq_getElem chs i (by omega)

/-- C3 witness: a 17-channel sequence; the slots hold the first 16 channels
and L = (17 - 1) mod 16 = 0. -/
theorem set_regular_sequence_truncates_witness :
    ∃ s', set_regular_sequence adcInit (List.range 17) = some s' ∧
      (List.range 16).map (decodeSlot s') = (List.range 17).take 16 ∧
      fieldGet s'.sqr1 20 4 = 0 := by
  have h := set_regular_sequence_truncates (List.range 17) adcInit
    (by decide) (by decide)
  simpa using h

/-- C4 counterexample: the claim's scenario says `calibrate()` with factory
reference 1210 mV, factory code 1489 and measured code 1500 yields
`calibrated_vdda = 1200`.  The code computes `1210 * 1489 / 1500`, which is
1201 (integer division), not 1200.  `adcInit`'s data-register oracle makes
the measured `Vref` code 1500. -/
theorem calibrate_scenario_not_1200 :
    ((calibrate 1210 1489 adcInit 0).map (fun p => p.1.calibrated_vdda)) ≠ some 1200 := by
  decide

/-- C4 (corrected): `calibrate()` sets `calibrated_vdda` to
`factory_reference_mV * factory_vref_calibration_code / measured_vref_code`
in `u32` integer arithmetic (the product taken modulo `2^32`, the measured
code being the sample `convert` reads from the data register); with the
scenario values 1210 mV, 1489 and 1500 the result is 1201, not the 1200 the
claim states. -/
theorem calibrate_vdda_formula (vddaCalib vrefCal : Nat) (s : Adc) (ccr : Nat) :
    ((calibrate vddaCalib vrefCal s ccr).map (fun p => p.1.calibrated_vdda)) =
      some (((vddaCalib * vrefCal) % 2 ^ 32) / fieldGet (s.dr (s.drReads + 1)) 0 16) ∧
    ((calibrate 1210 1489 adcInit 0).map (fun p => p.1.calibrated_vdda)) = some 1201 := by
  constructor
  · obtain ⟨s', hs'⟩ := convert_eq s 17 (by omega)
    unfold calibrate
    rw [hs']
    simp
  · decide

/-- C5 (confirmed): `sample_to_millivolts(sample)` is
`sample * calibrated_vdda / max_sample` in integer arithmetic, where the
divisor `max_sample = 2 ^ nb_resolution_bits` comes from the resolution the
instance was constructed with (any `b`, not a fixed 12-bit assumption); the
side conditions say the `u32` product and the `u16` result do not overflow
their Rust types.  In particular, a 12-bit instance with
`calibrated_vdda = 3300` maps sample 4095 to `4095 * 3300 / 4096 = 3299`. -/
theorem sample_to_millivolts_spec (s : Adc) (b v sample : Nat)
    (hb : b < 32) (hsam : sample < 2 ^ 16) (hov : sample * v < 2 ^ 32)
    (hfit : sample * v / 2 ^ b < 2 ^ 16) :
    sample_to_millivolts (adc1 s b v false) sample = sample * v / 2 ^ b ∧
    sample_to_millivolts (adc1 s 12 3300 false) 4095 = 3299 := by
  constructor
  · unfold sample_to_millivolts
    rw [max_sample_adc1, calibrated_vdda_adc1, Nat.mod_eq_of_lt hov, Nat.mod_eq_of_lt hfit]
  · have h1 := max_sample_adc1 s 12 3300
    have h2 := calibrated_vdda_adc1 s 12 3300
    unfold sample_to_millivolts
    rw [h1, h2]
    norm_num

/-- C5 witness: the spec scenario itself, `b = 12`, `v = 3300`,
`sample = 4095`. -/
theorem sample_to_millivolts_spec_witness :
    sample_to_millivolts (adc1 adcInit 12 3300 false) 4095 = 4095 * 3300 / 2 ^ 12 ∧
    sample_to_millivolts (adc1 adcInit 12 3300 false) 4095 = 3299 :=
  sample_to_millivolts_spec adcInit 12 3300 4095 (by decide) (by decide) (by decide) (by decide)

/-- C6 (confirmed): instances constructed with resolution 12, 10, 8 and 6
bits report `max_sample()` of 4095, 1023, 255 and 63 respectively, and write
the RES codes 0b00, 0b01, 0b10 and 0b11 into CR1 bits 24..25. -/
theorem adc1_resolution_table (s : Adc) (v : Nat) :
    maxSample (adc1 s 12 v false) = 4095 ∧ fieldGet (adc1 s 12 v false).cr1 24 2 = 0 ∧
    maxSample (adc1 s 10 v false) = 1023 ∧ fieldGet (adc1 s 10 v false).cr1 24 2 = 1 ∧
    maxSample (adc1 s 8 v false) = 255 ∧ fieldGet (adc1 s 8 v false).cr1 24 2 = 2 ∧
    maxSample (adc1 s 6 v false) = 63 ∧ fieldGet (adc1 s 6 v false).cr1 24 2 = 3 := by
  refine ⟨?_, ?_, ?_, ?_, ?_, ?_, ?_, ?_⟩ <;>
    simp [maxSample, max_sample_adc1, adc1, power_up, resolution, setup_oneshot,
      fieldGet_fieldSet_self, fieldGet_fieldSet_of_disjoint, Nat.one_shiftLeft] <;> try decide

/-- C7 (confirmed against the spec model of `dma::Transfer::new`): for every
buffer longer than 65535 elements, `with_dma` ends in the fatal precondition
failure (Rust panic, modelled as `Except.error`) — the oversized length is
never coerced and no `Except.ok` (recoverable) value is produced. -/
theorem with_dma_oversized (s : Adc) (buffer_len : Nat) (h : 65535 < buffer_len) :
    with_dma s buffer_len = Except.error "buffer is too large for DMA" := by
  unfold with_dma Transfer.new
  simp [h]

/-- C7 witness: a 65536-element buffer. -/
theorem with_dma_oversized_witness :
    with_dma adcInit 65536 = Except.error "buffer is too large for DMA" :=
  with_dma_oversized adcInit 65536 (by decide)

/-- C8 (confirmed, register-level content): `setup_oneshot` — which runs
during every construction — sets SWSTART (CR2 bit 30) in the same CR2 write
that clears CONT (bit 1), in addition to the spec-listed effects (SCAN
cleared, DISCEN set, sequence length field L = 0); the SWSTART bit is still
set in CR2 when the constructor returns.  Because a conversion can therefore
already be in flight on entry to `convert`, `convert` dummy-reads the data
register first and returns the *second* data-register read — the stale
sample (read index `drReads`) is discarded.  (That the hardware actually
starts a conversion is a hardware behaviour outside this embedding; the
register-level facts are what is provable.) -/
theorem setup_oneshot_swstart_convert_discards (s : Adc) (b v chan : Nat)
    (hc : chan ≤ 18) :
    fieldGet (setup_oneshot s).cr2 30 1 = 1 ∧
    fieldGet (setup_oneshot s).cr2 1 1 = 0 ∧
    fieldGet (setup_oneshot s).cr1 8 1 = 0 ∧
    fieldGet (setup_oneshot s).cr1 11 1 = 1 ∧
    fieldGet (setup_oneshot s).sqr1 20 4 = 0 ∧
    fieldGet (adc1 s b v false).cr2 30 1 = 1 ∧
    ((convert s chan).map Prod.fst) = some (fieldGet (s.dr (s.drReads + 1)) 0 16) := by
  refine ⟨?_, ?_, ?_, ?_, ?_, ?_, ?_⟩
  · simp [setup_oneshot, fieldGet_fieldSet_self]
  · simp [setup_oneshot, fieldGet_fieldSet_self, fieldGet_fieldSet_of_disjoint]
  · simp [setup_oneshot, fieldGet_fieldSet_self, fieldGet_fieldSet_of_disjoint]
  · simp [setup_oneshot, fieldGet_fieldSet_self, fieldGet_fieldSet_of_disjoint]
  · simp [setup_oneshot, fieldGet_fieldSet_self]
  · unfold adc1 power_up resolution setup_oneshot
    split_ifs <;>
      simp_all [fieldGet_fieldSet_self, fieldGet_fieldSet_of_disjoint]
  · obtain ⟨s', hs'⟩ := convert_eq s chan hc
    rw [hs']
    rfl

/-- C8 witness: channel 17 from the reset state. -/
theorem setup_oneshot_swstart_convert_discards_witness :
    fieldGet (setup_oneshot adcInit).cr2 30 1 = 1 ∧
    fieldGet (setup_oneshot adcInit).cr2 1 1 = 0 ∧
    fieldGet (setup_oneshot adcInit).cr1 8 1 = 0 ∧
    fieldGet (setup_oneshot adcInit).cr1 11 1 = 1 ∧
    fieldGet (setup_oneshot adcInit).sqr1 20 4 = 0 ∧
    fieldGet (adc1 adcInit 12 3300 false).cr2 30 1 = 1 ∧
    ((convert adcInit 17).map Prod.fst) =
      some (fieldGet (adcInit.dr (adcInit.drReads + 1)) 0 16) :=
  setup_oneshot_swstart_convert_discards adcInit 12 3300 17 (by decide)

/-- C9 (confirmed): when `read_vref` or `calibrate` is entered with the
temperature/vref block disabled (CCR.TSVREFE = 0), the shared control block
on exit has VBATE (bit 22) cleared — it is clobbered by `vbate().clear_bit()`
resp. `disable_vbat` and never restored, even when it was set on entry —
while TSVREFE is restored to its prior (disabled) state. -/
theorem read_vref_calibrate_clear_vbate (s : Adc) (ccr v c : Nat)
    (hts : fieldGet ccr 23 1 = 0) :
    ((read_vref s ccr).map (fun p => (fieldGet p.2.2 22 1, fieldGet p.2.2 23 1))) =
      some (0, 0) ∧
    ((calibrate v c s ccr).map (fun p => (fieldGet p.2 22 1, fieldGet p.2 23 1))) =
      some (0, 0) := by
  obtain ⟨s', hs'⟩ := convert_eq s 17 (by omega)
  have hne : ¬ fieldGet ccr 23 1 = 1 := by omega
  constructor
  · unfold read_vref
    rw [hs']
    simp only [hts, if_pos rfl, Option.map_some']
    simp [fieldGet_fieldSet_self, fieldGet_fieldSet_of_disjoint]
  · unfold calibrate temperature_and_vref_enabled enable_temperature_and_vref
      disable_temperature_and_vref
    rw [hs']
    simp only [hne, decide_eq_true_eq, if_neg, decide_False, Bool.false_eq_true,
      if_false, Option.map_some']
    simp [hne, fieldGet_fieldSet_self, fieldGet_fieldSet_of_disjoint]

/-- C9 witness: VBATE set and TSVREFE clear on entry (CCR = 2^22). -/
theorem read_vref_calibrate_clear_vbate_witness :
    ((read_vref adcInit 4194304).map
        (fun p => (fieldGet p.2.2 22 1, fieldGet p.2.2 23 1))) = some (0, 0) ∧
    ((calibrate 1210 1489 adcInit 4194304).map
        (fun p => (fieldGet p.2 22 1, fieldGet p.2 23 1))) = some (0, 0) :=
  read_vref_calibrate_clear_vbate adcInit 4194304 1210 1489 (by decide)

/-- C10 counterexample: the claim asserts that for *every* resolution value
outside {6, 8, 10, 12} the constructor leaves `max_sample()` returning
`2 ^ nb_resolution_bits - 1`.  For `nb_resolution_bits = 17` the `as u16`
cast in `max_sample()` truncates `2^17 - 1 = 131071` to 65535, so the claim
fails there. -/
theorem adc1_res17_maxSample :
    maxSample (adc1 adcInit 17 3300 false) = 65535 ∧
    maxSample (adc1 adcInit 17 3300 false) ≠ 2 ^ 17 - 1 := by
  constructor
  · decide
  · decide

/-- C10 (corrected): for every `nb_resolution_bits` outside {6, 8, 10, 12}
that is at most 16 (so that `2^bits - 1` survives the `u16` cast in
`max_sample()`), the constructor writes the 12-bit RES code 0b00 to CR1 bits
24..25 while still storing `max_sample = 2 ^ nb_resolution_bits`, so
`max_sample()` returns `2 ^ nb_resolution_bits - 1` and
`sample_to_millivolts` divides by `2 ^ nb_resolution_bits` — both
inconsistent with the 12-bit resolution configured in hardware. -/
theorem adc1_nonstandard_resolution (s : Adc) (b v sample : Nat) (hb : b ≤ 16)
    (h12 : b ≠ 12) (h10 : b ≠ 10) (h8 : b ≠ 8) (h6 : b ≠ 6) :
    fieldGet (adc1 s b v false).cr1 24 2 = 0 ∧
    (adc1 s b v false).max_sample = 2 ^ b ∧
    maxSample (adc1 s b v false) = 2 ^ b - 1 ∧
    sample_to_millivolts (adc1 s b v false) sample =
      ((sample * v) % 2 ^ 32) / 2 ^ b % 2 ^ 16 := by
  have hms := max_sample_adc1 s b v
  have hcv := calibrated_vdda_adc1 s b v
  refine ⟨?_, hms, ?_, ?_⟩
  · unfold adc1 power_up resolution setup_oneshot
    simp [h12, h10, h8, h6, fieldGet_fieldSet_self, fieldGet_fieldSet_of_disjoint]
  · unfold maxSample
    rw [hms]
    have : 2 ^ b - 1 < 2 ^ 16 := by
      have : 2 ^ b ≤ 2 ^ 16 := Nat.pow_le_pow_right (by norm_num) hb
      omega
    exact Nat.mod_eq_of_lt this
  · unfold sample_to_millivolts
    rw [hms, hcv]

/-- C10 witness: 9 bits — RES is written as 12-bit, `max_sample()` is
`2^9 - 1 = 511`, and the millivolt conversion divides by `2^9 = 512`. -/
theorem adc1_nonstandard_resolution_witness :
    fieldGet (adc1 adcInit 9 3300 false).cr1 24 2 = 0 ∧
    (adc1 adcInit 9 3300 false).max_sample = 2 ^ 9 ∧
    maxSample (adc1 adcInit 9 3300 false) = 2 ^ 9 - 1 ∧
    sample_to_millivolts (adc1 adcInit 9 3300 false) 511 =
      ((511 * 3300) % 2 ^ 32) / 2 ^ 9 % 2 ^ 16 :=
  adc1_nonstandard_resolution adcInit 9 3300 511 (by decide) (by decide) (by decide)
    (by decide) (by decide)

end Stm32Adc
